import Mathlib

/-!
Verification of the job-queue system's core: the Job store claim protocol,
the status-update semantics, the stats aggregation, the Redis token-bucket
rate limiter, the worker-manager scaling logic, the worker runtime's
PATCH/PUBLISH error handling, and the coordinator's completion handlers.

The definitions are a shallow embedding of the JavaScript source
(src/models/job.js, src/models/worker.js (unnamed part_000),
src/services/worker-manager.js, src/worker.js, src/limiter_api_BMN.lua,
and the Express routes of the coordinator).  SQLite tables are lists of
rows; `CURRENT_TIMESTAMP` is threaded as an explicit `now : Nat` argument;
JSON-serialized columns are kept as `Option String`.
-/

namespace Queue

/-- A row of the `jobs` table (src/db.js): id, type, payload (JSON text),
status, optional worker_id, optional result (JSON text), created_at,
updated_at. -/
structure JobRow where
  id : Nat
  type : String
  payload : String
  status : String
  worker_id : Option Nat
  result : Option String
  created_at : Nat
  updated_at : Nat
deriving Repr, DecidableEq

/-- The jobs table: a list of rows in row (insertion) order. -/
abbrev JobsDb := List JobRow

/-- The WHERE clause of the claim's SELECT:
`status = 'pending' AND type = ?`. -/
def isPendingOfType (t : String) (j : JobRow) : Bool :=
  j.status == "pending" && j.type == t

/-- `SELECT * FROM jobs WHERE status = 'pending' AND type = ?
ORDER BY created_at ASC LIMIT 1` (src/models/job.js, getNextPending):
the earliest-in-row-order row of minimal created_at among pending rows of
the given type, or none. -/
def selectOldestPending (t : String) : JobsDb → Option JobRow
  | [] => none
  | j :: rest =>
    let r := selectOldestPending t rest
    if isPendingOfType t j then
      match r with
      | none => some j
      | some b => if j.created_at ≤ b.created_at then some j else some b
    else r

/-- The row update applied by the claim's compare-and-set UPDATE:
`SET status = 'processing', updated_at = CURRENT_TIMESTAMP`. -/
def claimUpdateRow (idv : Nat) (now : Nat) (j : JobRow) : JobRow :=
  if j.id == idv && j.status == "pending" then
    { j with status := "processing", updated_at := now }
  else j

/-- `UPDATE jobs SET status = 'processing', updated_at = CURRENT_TIMESTAMP
WHERE id = ? AND status = 'pending'` (src/models/job.js, getNextPending).
Returns the updated table together with `updateResult.changes`, the number
of rows matched by the WHERE clause. -/
def casClaim (idv : Nat) (now : Nat) (db : JobsDb) : JobsDb × Nat :=
  (db.map (claimUpdateRow idv now),
   (db.filter (fun j => j.id == idv && j.status == "pending")).length)

/-- `Job.getNextPending(type)` (src/models/job.js lines 14-41), with the
SELECT and the UPDATE allowed to observe different table states `s` and
`u` so that an interleaved writer between the two steps is expressible:
select the oldest pending row of the type from `s`; if none, return null;
otherwise run the compare-and-set on `u`; if it changed zero rows return
null, else return the row as read from `s`.  The second component is the
table after the operation. -/
def getNextPending (t : String) (now : Nat) (s u : JobsDb) :
    Option JobRow × JobsDb :=
  match selectOldestPending t s with
  | none => (none, u)
  | some job =>
    let p := casClaim job.id now u
    if p.2 = 0 then (none, p.1) else (some job, p.1)

/-- `Job.getNextPending` executed without interference: the SELECT and the
UPDATE see the same table. -/
def getNextPendingSeq (t : String) (now : Nat) (db : JobsDb) :
    Option JobRow × JobsDb :=
  getNextPending t now db db

/-- `Job.updateStatus(id, status, workerId = null, result = null)`
(src/models/job.js lines 43-48): `UPDATE jobs SET status = ?, worker_id = ?,
result = ?, updated_at = CURRENT_TIMESTAMP WHERE id = ?` — an unconditional
overwrite of all three columns on every row with the given id. -/
def updateStatus (idv : Nat) (status : String) (workerId : Option Nat)
    (result : Option String) (now : Nat) (db : JobsDb) : JobsDb :=
  db.map (fun j =>
    if j.id == idv then
      { j with status := status, worker_id := workerId, result := result,
               updated_at := now }
    else j)

/-- `SELECT COUNT(*) FROM jobs WHERE status = ?`. -/
def countStatus (s : String) (db : JobsDb) : Nat :=
  (db.filter (fun j => j.status == s)).length

/-- The four per-status counts returned by `Job.getStats`
(src/models/job.js lines 50-58), summed. -/
def statsSum (db : JobsDb) : Nat :=
  countStatus "pending" db + countStatus "processing" db +
  countStatus "completed" db + countStatus "failed" db

/- ### Basic lemmas about the claim operation -/

theorem selectOldestPending_mem {t : String} {db : JobsDb} {c : JobRow}
    (h : selectOldestPending t db = some c) : c ∈ db := by
  induction db with
  | nil => simp [selectOldestPending] at h
  | cons j rest ih =>
    simp only [selectOldestPending] at h
    by_cases hp : isPendingOfType t j
    · simp only [hp, if_true] at h
      cases hr : selectOldestPending t rest with
      | none => simp [hr] at h; simp [h]
      | some b =>
        simp only [hr] at h
        by_cases hle : j.created_at ≤ b.created_at
        · simp [hle] at h; simp [h]
        · simp [hle] at h
          exact List.mem_cons_of_mem _ (ih (h ▸ hr))
    · simp only [hp, if_false] at h
      exact List.mem_cons_of_mem _ (ih h)

theorem selectOldestPending_pending {t : String} {db : JobsDb} {c : JobRow}
    (h : selectOldestPending t db = some c) : isPendingOfType t c = true := by
  induction db with
  | nil => simp [selectOldestPending] at h
  | cons j rest ih =>
    simp only [selectOldestPending] at h
    by_cases hp : isPendingOfType t j
    · simp only [hp, if_true] at h
      cases hr : selectOldestPending t rest with
      | none => simp [hr] at h; rw [← h]; exact hp
      | some b =>
        simp only [hr] at h
        by_cases hle : j.created_at ≤ b.created_at
        · simp [hle] at h; rw [← h]; exact hp
        · simp [hle] at h; exact ih (h ▸ hr)
    · simp only [hp, if_false] at h
      exact ih h

theorem selectOldestPending_none_iff {t : String} {db : JobsDb} :
    selectOldestPending t db = none ↔ db.filter (isPendingOfType t) = [] := by
  induction db with
  | nil => simp [selectOldestPending]
  | cons j rest ih =>
    simp only [selectOldestPending, List.filter_cons]
    by_cases hp : isPendingOfType t j
    · simp only [hp, if_true]
      constructor
      · intro h
        cases hr : selectOldestPending t rest <;> simp [hr] at h
        split at h <;> simp at h
      · intro h; simp at h
    · simp only [hp, if_false]
      simpa using ih

theorem selectOldestPending_filter_ne_nil {t : String} {db : JobsDb}
    {x : JobRow} (hx : x ∈ db) (hpx : isPendingOfType t x = true) :
    selectOldestPending t db ≠ none := by
  rw [ne_eq, selectOldestPending_none_iff]
  intro hnil
  have : x ∈ db.filter (isPendingOfType t) :=
    List.mem_filter.mpr ⟨hx, hpx⟩
  rw [hnil] at this
  exact absurd this (List.not_mem_nil x)

theorem selectOldestPending_minimal (t : String) :
    ∀ (db : JobsDb) (c : JobRow), selectOldestPending t db = some c →
    ∀ j ∈ db, isPendingOfType t j = true → c.created_at ≤ j.created_at := by
  intro db
  induction db with
  | nil => intro c h; simp [selectOldestPending] at h
  | cons j rest ih =>
    intro c h x hx hpx
    simp only [selectOldestPending] at h
    by_cases hp : isPendingOfType t j
    · simp only [hp, if_true] at h
      cases hr : selectOldestPending t rest with
      | none =>
        simp only [hr, Option.some.injEq] at h
        rcases List.mem_cons.mp hx with hxj | hxr
        · rw [← h, hxj]
        · exact absurd hr (selectOldestPending_filter_ne_nil hxr hpx)
      | some b =>
        simp only [hr] at h
        by_cases hle : j.created_at ≤ b.created_at
        · simp only [hle, if_true, Option.some.injEq] at h
          rcases List.mem_cons.mp hx with hxj | hxr
          · rw [← h, hxj]
          · exact le_trans (h ▸ hle) (ih b hr x hxr hpx)
        · simp only [hle, if_false, Option.some.injEq] at h
          rcases List.mem_cons.mp hx with hxj | hxr
          · rw [← h, hxj]
            exact le_of_lt (lt_of_not_le hle)
          · exact ih c (h ▸ hr) x hxr hpx
    · simp only [hp, if_false] at h
      rcases List.mem_cons.mp hx with hxj | hxr
      · rw [hxj] at hpx
        exact absurd hpx hp
      · exact ih c h x hxr hpx

/-- When the candidate row is itself present and pending in the table the
UPDATE runs on, the compare-and-set matches at least one row. -/
theorem casClaim_changes_pos {c : JobRow} {db : JobsDb} (now : Nat)
    (hmem : c ∈ db) (hp : c.status = "pending") :
    (casClaim c.id now db).2 ≠ 0 := by
  simp only [casClaim, ne_eq, List.length_eq_zero]
  intro hlen
  have : c ∈ db.filter (fun j => j.id == c.id && j.status == "pending") := by
    apply List.mem_filter.mpr
    exact ⟨hmem, by simp [hp]⟩
  rw [hlen] at this
  exact absurd this (List.not_mem_nil c)

theorem isPendingOfType_iff {t : String} {j : JobRow} :
    isPendingOfType t j = true ↔ j.status = "pending" ∧ j.type = t := by
  simp [isPendingOfType]

/-- A compare-and-set that matched zero rows leaves the table unchanged. -/
theorem casClaim_zero_changes_id {idv now : Nat} {db : JobsDb}
    (h : (casClaim idv now db).2 = 0) : (casClaim idv now db).1 = db := by
  simp only [casClaim, List.length_eq_zero] at h ⊢
  have hall : ∀ j ∈ db, ¬(j.id == idv && j.status == "pending") = true := by
    intro j hj hcontra
    have : j ∈ db.filter (fun j => j.id == idv && j.status == "pending") :=
      List.mem_filter.mpr ⟨hj, hcontra⟩
    rw [h] at this
    exact absurd this (List.not_mem_nil j)
  have : ∀ j ∈ db, claimUpdateRow idv now j = j := by
    intro j hj
    simp only [claimUpdateRow]
    rw [if_neg]
    exact hall j hj
  calc db.map (claimUpdateRow idv now) = db.map id := List.map_congr_left this
    _ = db := List.map_id db

/-- Reduction of getNextPending once the SELECT's result is known. -/
theorem getNextPending_some_eq {t : String} {now : Nat} {s : JobsDb}
    (u : JobsDb) {c : JobRow} (hc : selectOldestPending t s = some c) :
    getNextPending t now s u =
      if (casClaim c.id now u).2 = 0 then (none, (casClaim c.id now u).1)
      else (some c, (casClaim c.id now u).1) := by
  unfold getNextPending
  rw [hc]

/-- Inversion for a successful sequential claim. -/
theorem getNextPendingSeq_some_inv {t : String} {now : Nat} {db db2 : JobsDb}
    {c : JobRow} (h : getNextPendingSeq t now db = (some c, db2)) :
    selectOldestPending t db = some c ∧ db2 = (casClaim c.id now db).1 := by
  unfold getNextPendingSeq getNextPending at h
  cases hs : selectOldestPending t db with
  | none => rw [hs] at h; simp at h
  | some b =>
    rw [hs] at h
    simp only at h
    by_cases hz : (casClaim b.id now db).2 = 0
    · rw [if_pos hz] at h; simp at h
    · rw [if_neg hz] at h
      have hb : b = c := by
        have := congrArg Prod.fst h
        simpa using this
      subst hb
      exact ⟨rfl, by have := congrArg Prod.snd h; simpa using this.symm⟩

/-- C1: the claim operation getNextPending. If no pending job of the type
exists, the result is null and the table is untouched; otherwise the
selected candidate is the pending job of the type with minimal created_at,
the compare-and-set rewrites to processing exactly the rows whose id is
the candidate's and whose status is still pending, a zero-row update
yields null with the table unchanged, a non-zero update yields the
candidate as read, and the uninterfered (sequential) run always claims the
candidate. -/
theorem job_getNextPending_spec (t : String) (now : Nat) (s u : JobsDb) :
    (s.filter (isPendingOfType t) = [] → getNextPending t now s u = (none, u)) ∧
    (∀ c, selectOldestPending t s = some c →
      c.status = "pending" ∧ c.type = t ∧
      (∀ j ∈ s, isPendingOfType t j = true → c.created_at ≤ j.created_at) ∧
      (∀ j ∈ u, ¬(j.id = c.id ∧ j.status = "pending") →
        j ∈ (getNextPending t now s u).2) ∧
      (∀ j ∈ u, j.id = c.id → j.status = "pending" →
        { j with status := "processing", updated_at := now }
          ∈ (getNextPending t now s u).2) ∧
      ((casClaim c.id now u).2 = 0 → getNextPending t now s u = (none, u)) ∧
      ((casClaim c.id now u).2 ≠ 0 →
        getNextPending t now s u = (some c, (casClaim c.id now u).1)) ∧
      getNextPendingSeq t now s = (some c, (casClaim c.id now s).1)) := by
  constructor
  · intro hnil
    have hs : selectOldestPending t s = none :=
      selectOldestPending_none_iff.mpr hnil
    unfold getNextPending
    rw [hs]
  · intro c hc
    have hpend := selectOldestPending_pending hc
    obtain ⟨hst, hty⟩ := isPendingOfType_iff.mp hpend
    have hmem := selectOldestPending_mem hc
    have hsnd : (getNextPending t now s u).2 = (casClaim c.id now u).1 := by
      rw [getNextPending_some_eq u hc]
      by_cases hz : (casClaim c.id now u).2 = 0
      · rw [if_pos hz]
      · rw [if_neg hz]
    refine ⟨hst, hty, selectOldestPending_minimal t s c hc, ?_, ?_, ?_, ?_, ?_⟩
    · intro j hj hnm
      rw [hsnd]
      refine List.mem_map.mpr ⟨j, hj, ?_⟩
      simp only [claimUpdateRow]
      rw [if_neg]
      intro hcontra
      simp only [Bool.and_eq_true, beq_iff_eq] at hcontra
      exact hnm hcontra
    · intro j hj hid hjst
      rw [hsnd]
      refine List.mem_map.mpr ⟨j, hj, ?_⟩
      simp only [claimUpdateRow]
      rw [if_pos]
      simp [hid, hjst]
    · intro hz
      rw [getNextPending_some_eq u hc, if_pos hz, casClaim_zero_changes_id hz]
    · intro hz
      rw [getNextPending_some_eq u hc, if_neg hz]
    · have hpos : (casClaim c.id now s).2 ≠ 0 :=
        casClaim_changes_pos now hmem hst
      unfold getNextPendingSeq
      rw [getNextPending_some_eq s hc, if_neg hpos]

/-- Concrete pending job used by the witnesses. -/
def jobEx : JobRow :=
  { id := 1, type := "sms", payload := "p", status := "pending",
    worker_id := none, result := none, created_at := 3, updated_at := 3 }

theorem job_getNextPending_spec_witness :
    getNextPending "sms" 5 ([] : JobsDb) [] = (none, []) ∧
    getNextPendingSeq "sms" 7 [jobEx] =
      (some jobEx, [{ jobEx with status := "processing", updated_at := 7 }]) := by
  constructor
  · exact (job_getNextPending_spec "sms" 5 [] []).1 (by decide)
  · have h := ((job_getNextPending_spec "sms" 7 [jobEx] [jobEx]).2 jobEx
      (by decide)).2.2.2.2.2.2.2
    rw [h]
    decide

/-- C10: a successful claim returns the row as it was read before the
compare-and-set: its status field still reads pending, while the table now
records processing (with a refreshed updated_at) for that job.  The route
GET /api/jobs/next/:type serializes this returned row (after parsing its
payload), so the response's status field is also pending. -/
theorem claim_returns_stale_status {t : String} {now : Nat} {db db2 : JobsDb}
    {c : JobRow} (h : getNextPendingSeq t now db = (some c, db2)) :
    c.status = "pending" ∧
    { c with status := "processing", updated_at := now } ∈ db2 := by
  obtain ⟨hsel, hdb2⟩ := getNextPendingSeq_some_inv h
  have hpend := selectOldestPending_pending hsel
  obtain ⟨hst, _⟩ := isPendingOfType_iff.mp hpend
  refine ⟨hst, ?_⟩
  rw [hdb2]
  refine List.mem_map.mpr ⟨c, selectOldestPending_mem hsel, ?_⟩
  simp only [claimUpdateRow]
  rw [if_pos]
  simp [hst]

theorem claim_returns_stale_status_witness :
    jobEx.status = "pending" ∧
    { jobEx with status := "processing", updated_at := 7 } ∈
      ([{ jobEx with status := "processing", updated_at := 7 }] : JobsDb) := by
  exact @claim_returns_stale_status "sms" 7 [jobEx]
    [{ jobEx with status := "processing", updated_at := 7 }] jobEx (by decide)

/-- The worker runtime's completion PATCH (src/worker.js lines 155-165):
PATCH /api/jobs/:id with body fields status = completed and result only —
the workerId field is omitted, so the route hands workerId = undefined to
Job.updateStatus, whose default turns it into null. -/
def completionPatch (jobId : Nat) (result : Option String) (now : Nat)
    (db : JobsDb) : JobsDb :=
  updateStatus jobId "completed" none result now db

/-- C9: Job.updateStatus is a full overwrite: with workerId or result
omitted (null), every row with the given id gets worker_id = NULL and
result = NULL even if they previously held non-null values; rows with a
different id are untouched; in particular the worker runtime's completion
PATCH clears the job's worker attribution. -/
theorem updateStatus_full_overwrite (idv : Nat) (st : String) (now : Nat)
    (db : JobsDb) :
    (∀ j ∈ db, j.id = idv →
       { j with status := st, worker_id := none, result := none,
                updated_at := now } ∈ updateStatus idv st none none now db) ∧
    (∀ j ∈ db, j.id ≠ idv → j ∈ updateStatus idv st none none now db) ∧
    (∀ j ∈ db, j.id = idv →
       { j with status := "completed", worker_id := none, result := none,
                updated_at := now } ∈ completionPatch idv none now db) := by
  refine ⟨?_, ?_, ?_⟩
  · intro j hj hid
    refine List.mem_map.mpr ⟨j, hj, ?_⟩
    rw [if_pos (by simp [hid])]
  · intro j hj hid
    refine List.mem_map.mpr ⟨j, hj, ?_⟩
    rw [if_neg (by simp [hid])]
  · intro j hj hid
    refine List.mem_map.mpr ⟨j, hj, ?_⟩
    rw [if_pos (by simp [hid])]

/-- A job row carrying a worker attribution, for the C9 witness. -/
def jobAttr : JobRow :=
  { id := 4, type := "email", payload := "p", status := "processing",
    worker_id := some 9, result := some "r", created_at := 2, updated_at := 2 }

theorem updateStatus_full_overwrite_witness :
    { jobAttr with status := "completed", worker_id := none, result := none,
                   updated_at := 6 } ∈ completionPatch 4 none 6 [jobAttr] ∧
    jobAttr.worker_id = some 9 := by
  refine ⟨(updateStatus_full_overwrite 4 "completed" 6 [jobAttr]).2.2 jobAttr
    (by decide) (by decide), by decide⟩

/- ### Rate limiter (src/limiter_api_BMN.lua) -/

/-- The Redis hash holding a token bucket: the `tokens` and `last_request`
fields (each possibly absent) and the key's TTL. -/
structure Bucket where
  tokens : Option Int
  lastRequest : Option Int
  ttl : Option Int
deriving Repr, DecidableEq

/-- The rate-limiter script (src/limiter_api_BMN.lua lines 8-32), with the
baked-in constants maxTokens, refillRate, keyExpiry as parameters and the
server clock `now` explicit.  `tonumber(HGET .. "tokens" or "0")` reads 0
when the field is absent; the branch condition is the absence of
`last_request`.  Returns 1 (ALLOW) or 0 (DENY) with the new bucket. -/
def rateLimit (maxTokens refillRate keyExpiry now : Int) (b : Bucket) :
    Int × Bucket :=
  let currentTokens := b.tokens.getD 0
  match b.lastRequest with
  | none =>
    (1, { tokens := some (maxTokens - 1), lastRequest := some now,
          ttl := some keyExpiry })
  | some last =>
    let elapsed := now - last
    let newTokens := min maxTokens (currentTokens + elapsed * refillRate)
    if newTokens > 0 then
      (1, { b with tokens := some (newTokens - 1), lastRequest := some now })
    else
      (0, b)

/-- C5: each invocation of the rate-limiter script: an absent bucket is
initialized to (maxTokens − 1, now) with TTL keyExpiry and ALLOWed;
otherwise with newTokens = min maxTokens (tokens + (now − last) ×
refillRate), a positive newTokens persists (newTokens − 1, now) and
ALLOWs, and a non-positive newTokens DENYs leaving the bucket unchanged. -/
theorem rateLimit_spec (maxTokens refillRate keyExpiry now : Int)
    (b : Bucket) :
    (b.tokens = none → b.lastRequest = none →
      rateLimit maxTokens refillRate keyExpiry now b =
        (1, { tokens := some (maxTokens - 1), lastRequest := some now,
              ttl := some keyExpiry })) ∧
    (∀ tok last, b.tokens = some tok → b.lastRequest = some last →
      (min maxTokens (tok + (now - last) * refillRate) > 0 →
        rateLimit maxTokens refillRate keyExpiry now b =
          (1, { b with
                tokens := some (min maxTokens (tok + (now - last) * refillRate) - 1),
                lastRequest := some now })) ∧
      (min maxTokens (tok + (now - last) * refillRate) ≤ 0 →
        rateLimit maxTokens refillRate keyExpiry now b = (0, b))) := by
  constructor
  · intro htok hlast
    unfold rateLimit
    rw [hlast]
  · intro tok last htok hlast
    constructor
    · intro hpos
      unfold rateLimit
      rw [hlast]
      simp only [htok, Option.getD_some]
      rw [if_pos hpos]
    · intro hnp
      unfold rateLimit
      rw [hlast]
      simp only [htok, Option.getD_some]
      rw [if_neg (not_lt.mpr hnp)]

theorem rateLimit_spec_witness :
    rateLimit 10 5 300 100 { tokens := none, lastRequest := none, ttl := none } =
      (1, { tokens := some 9, lastRequest := some 100, ttl := some 300 }) ∧
    rateLimit 10 5 300 100
        { tokens := some 3, lastRequest := some 100, ttl := some 300 } =
      (1, { tokens := some 2, lastRequest := some 100, ttl := some 300 }) ∧
    rateLimit 10 5 300 100
        { tokens := some 0, lastRequest := some 100, ttl := some 300 } =
      (0, { tokens := some 0, lastRequest := some 100, ttl := some 300 }) := by
  refine ⟨(rateLimit_spec 10 5 300 100 _).1 rfl rfl, ?_, ?_⟩
  · have h := ((rateLimit_spec 10 5 300 100
      { tokens := some 3, lastRequest := some 100, ttl := some 300 }).2
      3 100 rfl rfl).1 (by decide)
    rw [h]
    decide
  · have h := ((rateLimit_spec 10 5 300 100
      { tokens := some 0, lastRequest := some 100, ttl := some 300 }).2
      0 100 rfl rfl).2 (by decide)
    rw [h]

/- ### Worker registry and completion handlers -/

/-- A row of the `workers` table (src/db.js). -/
structure WorkerRow where
  id : Nat
  type : String
  status : String
  last_active : Nat
  created_at : Nat
  updated_at : Nat
deriving Repr, DecidableEq

abbrev WorkersDb := List WorkerRow

/-- `Worker.updateStatus(id, status)` (src/models/worker.js, part_000
lines 21-26): `UPDATE workers SET status = ?, last_active =
CURRENT_TIMESTAMP, updated_at = CURRENT_TIMESTAMP WHERE id = ?`. -/
def workerUpdateStatus (idv : Nat) (status : String) (now : Nat)
    (ws : WorkersDb) : WorkersDb :=
  ws.map (fun w =>
    if w.id == idv then
      { w with status := status, last_active := now, updated_at := now }
    else w)

/-- The coordinator's persistent state: the jobs and workers tables. -/
structure CoordState where
  jobs : JobsDb
  workers : WorkersDb
deriving Repr, DecidableEq

/-- The `worker:job-complete` handler (part_000 lines 69-72):
`jobModel.updateStatus(jobId, 'completed', workerId, result)` then
`workerModel.updateStatus(workerId, 'idle')`. -/
def onJobComplete (jobId workerId : Nat) (result : Option String)
    (now : Nat) (s : CoordState) : CoordState :=
  { jobs := updateStatus jobId "completed" (some workerId) result now s.jobs,
    workers := workerUpdateStatus workerId "idle" now s.workers }

/-- The `worker:job-failed` handler (part_000 lines 73-76):
`jobModel.updateStatus(jobId, 'failed', workerId, {error})` then
`workerModel.updateStatus(workerId, 'idle')`; `errJson` is the serialized
error record. -/
def onJobFailed (jobId workerId : Nat) (errJson : String) (now : Nat)
    (s : CoordState) : CoordState :=
  { jobs := updateStatus jobId "failed" (some workerId) (some errJson) now
              s.jobs,
    workers := workerUpdateStatus workerId "idle" now s.workers }

theorem updateStatus_idem (idv : Nat) (st : String) (w : Option Nat)
    (r : Option String) (t1 t2 : Nat) (db : JobsDb) :
    updateStatus idv st w r t2 (updateStatus idv st w r t1 db) =
      updateStatus idv st w r t2 db := by
  unfold updateStatus
  rw [List.map_map]
  apply List.map_congr_left
  intro j _
  by_cases h : j.id == idv
  · simp [Function.comp, h]
  · simp [Function.comp, h]

theorem workerUpdateStatus_idem (idv : Nat) (st : String) (t1 t2 : Nat)
    (ws : WorkersDb) :
    workerUpdateStatus idv st t2 (workerUpdateStatus idv st t1 ws) =
      workerUpdateStatus idv st t2 ws := by
  unfold workerUpdateStatus
  rw [List.map_map]
  apply List.map_congr_left
  intro w _
  by_cases h : w.id == idv
  · simp [Function.comp, h]
  · simp [Function.comp, h]

/-- C7: the coordinator's completion handlers are idempotent: applying the
worker:job-complete handler (respectively worker:job-failed) twice with
the same event yields the same Job and Worker records as applying it once
(at the time of the last receipt). -/
theorem completion_handlers_idempotent (jobId workerId : Nat)
    (result : Option String) (errJson : String) (t1 t2 : Nat)
    (s : CoordState) :
    onJobComplete jobId workerId result t2
        (onJobComplete jobId workerId result t1 s) =
      onJobComplete jobId workerId result t2 s ∧
    onJobFailed jobId workerId errJson t2
        (onJobFailed jobId workerId errJson t1 s) =
      onJobFailed jobId workerId errJson t2 s := by
  constructor
  · unfold onJobComplete
    simp only
    rw [updateStatus_idem, workerUpdateStatus_idem]
  · unfold onJobFailed
    simp only
    rw [updateStatus_idem, workerUpdateStatus_idem]

/- ### Status machine and stats over the public HTTP interface -/

/-- The closed set of job types (src/config.js, jobTypes). -/
def jobTypesList : List String :=
  ["email", "whatsapp", "sms", "notification", "cronjob"]

/-- The jobs-table states reachable through the public HTTP interface:
the empty table; POST /api/jobs (part_000 lines 91-119) appending a
pending row of a valid type; PATCH /api/jobs/:id (part_000 lines 144-155)
passing the request body's status/workerId/result straight to
Job.updateStatus with no validation; GET /api/jobs/next/:type (part_000
lines 158-173) running the claim operation. -/
inductive Reachable : JobsDb → Prop where
  | init : Reachable []
  | createJob : ∀ (db : JobsDb) (t p : String) (idv now : Nat),
      t ∈ jobTypesList → Reachable db →
      Reachable (db ++ [(⟨idv, t, p, "pending", none, none, now, now⟩ : JobRow)])
  | patchJob : ∀ (db : JobsDb) (idv : Nat) (st : String) (w : Option Nat)
      (r : Option String) (now : Nat), Reachable db →
      Reachable (updateStatus idv st w r now db)
  | claimJob : ∀ (db : JobsDb) (t : String) (now : Nat), Reachable db →
      Reachable (getNextPendingSeq t now db).2

/-- A completed job row, for the C3 counterexample. -/
def jobDone : JobRow :=
  { id := 2, type := "sms", payload := "p", status := "completed",
    worker_id := some 1, result := some "r", created_at := 1,
    updated_at := 1 }

/-- C3 counterexample: PATCH /api/jobs/:id goes through Job.updateStatus,
an unguarded single-row UPDATE, so a completed job PATCHed with status
pending regresses to pending — the status machine is not one-way at the
public interface. -/
theorem status_regression_counterexample :
    jobDone.status = "completed" ∧
    (updateStatus 2 "pending" none none 5 [jobDone]).map JobRow.status =
      ["pending"] := by
  decide

/-- C3 amended: Job.updateStatus is last-writer-wins — it sets every row
with the given id to exactly the supplied status whatever the previous
status was, so PATCH can regress a completed, failed or processing job;
the only guarded transition in the code is the claim's compare-and-set,
which never touches a non-pending row and only ever writes processing. -/
theorem status_machine_unguarded (idv : Nat) (st : String) (w : Option Nat)
    (r : Option String) (now : Nat) (db : JobsDb) :
    (∀ j ∈ db, j.id = idv →
      { j with status := st, worker_id := w, result := r,
               updated_at := now } ∈ updateStatus idv st w r now db) ∧
    (∀ j ∈ db, j.status ≠ "pending" → j ∈ (casClaim idv now db).1) ∧
    (∀ j : JobRow, claimUpdateRow idv now j = j ∨
      (j.status = "pending" ∧ claimUpdateRow idv now j =
        { j with status := "processing", updated_at := now })) := by
  refine ⟨?_, ?_, ?_⟩
  · intro j hj hid
    refine List.mem_map.mpr ⟨j, hj, ?_⟩
    rw [if_pos (by simp [hid])]
  · intro j hj hst
    refine List.mem_map.mpr ⟨j, hj, ?_⟩
    simp only [claimUpdateRow]
    rw [if_neg (by simp [hst])]
  · intro j
    by_cases hst : j.status = "pending"
    · by_cases hid : j.id = idv
      · refine Or.inr ⟨hst, ?_⟩
        simp only [claimUpdateRow]
        rw [if_pos (by simp [hid, hst])]
      · refine Or.inl ?_
        simp only [claimUpdateRow]
        rw [if_neg (by simp [hid])]
    · refine Or.inl ?_
      simp only [claimUpdateRow]
      rw [if_neg (by simp [hst])]

theorem status_machine_unguarded_witness :
    { jobDone with status := "pending", worker_id := none, result := none,
                   updated_at := 5 } ∈
        updateStatus 2 "pending" none none 5 [jobDone] ∧
    jobDone ∈ (casClaim 2 9 [jobDone]).1 := by
  refine ⟨(status_machine_unguarded 2 "pending" none none 5 [jobDone]).1
    jobDone (by decide) (by decide), ?_⟩
  exact (status_machine_unguarded 2 "pending" none none 9 [jobDone]).2.1
    jobDone (by decide) (by decide)

/-- The table obtained by creating one job and PATCHing it with an
arbitrary status string — which the route accepts unvalidated. -/
def badStatusDb : JobsDb :=
  updateStatus 1 "bogus" none none 2
    [{ id := 1, type := "sms", payload := "p", status := "pending",
       worker_id := none, result := none, created_at := 1, updated_at := 1 }]

/-- C4 counterexample: PATCH /api/jobs/:id performs no validation of the
status string, so a reachable state holds a job whose status is outside
the four counted buckets; there the per-status counts sum to 0 while the
table holds 1 row. -/
theorem stats_sum_counterexample :
    Reachable badStatusDb ∧ statsSum badStatusDb = 0 ∧
    badStatusDb.length = 1 := by
  refine ⟨?_, by decide, by decide⟩
  exact Reachable.patchJob _ 1 "bogus" none none 2
    (Reachable.createJob [] "sms" "p" 1 1 (by decide) Reachable.init)

/-- C4 amended: the sum of the four per-status counts of /api/stats equals
the total number of job rows exactly in those states where every job's
status lies in the canonical set {pending, processing, completed, failed};
the unvalidated PATCH can leave that set, and then the sum undercounts. -/
theorem countStatus_cons (s : String) (j : JobRow) (rest : JobsDb) :
    countStatus s (j :: rest) =
      (if j.status = s then 1 else 0) + countStatus s rest := by
  simp only [countStatus, List.filter_cons]
  by_cases h : j.status = s
  · rw [if_pos (by simp [h]), if_pos h, List.length_cons]
    omega
  · rw [if_neg (by simp [h]), if_neg h]
    omega

theorem stats_sum_eq_total (db : JobsDb)
    (h : ∀ j ∈ db, j.status = "pending" ∨ j.status = "processing" ∨
         j.status = "completed" ∨ j.status = "failed") :
    statsSum db = db.length := by
  induction db with
  | nil => rfl
  | cons j rest ih =>
    have hj := h j (List.mem_cons_self j rest)
    have hrest := ih (fun x hx => h x (List.mem_cons_of_mem j hx))
    simp only [statsSum, countStatus_cons, List.length_cons] at hrest ⊢
    rcases hj with hs | hs | hs | hs
    · rw [hs, if_pos rfl,
        if_neg (show ¬("pending" = "processing") by decide),
        if_neg (show ¬("pending" = "completed") by decide),
        if_neg (show ¬("pending" = "failed") by decide)]
      omega
    · rw [hs, if_neg (show ¬("processing" = "pending") by decide),
        if_pos rfl,
        if_neg (show ¬("processing" = "completed") by decide),
        if_neg (show ¬("processing" = "failed") by decide)]
      omega
    · rw [hs, if_neg (show ¬("completed" = "pending") by decide),
        if_neg (show ¬("completed" = "processing") by decide),
        if_pos rfl,
        if_neg (show ¬("completed" = "failed") by decide)]
      omega
    · rw [hs, if_neg (show ¬("failed" = "pending") by decide),
        if_neg (show ¬("failed" = "processing") by decide),
        if_neg (show ¬("failed" = "completed") by decide),
        if_pos rfl]
      omega

theorem stats_sum_eq_total_witness :
    statsSum [jobEx, jobDone] = ([jobEx, jobDone] : JobsDb).length := by
  exact stats_sum_eq_total [jobEx, jobDone] (by decide)

/- ### Worker supervisor (src/services/worker-manager.js) -/

/-- The WorkerManager's state: the workers table (the durable worker
registry) and the ids holding a live child-process handle (the in-memory
`this.workers` map). -/
structure WMState where
  registry : WorkersDb
  handles : List Nat
deriving Repr, DecidableEq

/-- AUTOINCREMENT id assignment for the workers table. -/
def freshWorkerId (reg : WorkersDb) : Nat :=
  (reg.map WorkerRow.id).foldr max 0 + 1

/-- `Worker.create(type)` (part_000 lines 6-12): INSERT an idle row,
return lastID. -/
def workerCreate (t : String) (now : Nat) (reg : WorkersDb) :
    WorkersDb × Nat :=
  let idv := freshWorkerId reg
  (reg ++ [(⟨idv, t, "idle", now, now, now⟩ : WorkerRow)], idv)

/-- `startWorker(id, type)` (worker-manager.js lines 19-54): spawn a child
process and store its handle under the worker's id. -/
def startWorker (idv : Nat) (s : WMState) : WMState :=
  if idv ∈ s.handles then s else { s with handles := s.handles ++ [idv] }

/-- `stopWorker(id)` (worker-manager.js lines 62-69): if a handle exists,
kill the process, delete the handle and return true; otherwise return
false.  The registry row is never touched. -/
def stopWorker (idv : Nat) (s : WMState) : WMState × Bool :=
  if idv ∈ s.handles then
    ({ s with handles := s.handles.filter (fun h => h != idv) }, true)
  else (s, false)

/-- `Worker.getByType(type)` (part_000 lines 32-34):
`SELECT * FROM workers WHERE type = ?`, in row order. -/
def getByType (t : String) (reg : WorkersDb) : WorkersDb :=
  reg.filter (fun w => w.type == t)

/-- `createWorker(type)` (worker-manager.js lines 56-60): register a row,
then start the process. -/
def createWorker (t : String) (now : Nat) (s : WMState) : WMState :=
  let p := workerCreate t now s.registry
  startWorker p.2 { s with registry := p.1 }

/-- The scale-up loop of scaleWorkers (lines 74-77). -/
def createWorkersLoop (n : Nat) (t : String) (now : Nat) (s : WMState) :
    WMState :=
  match n with
  | 0 => s
  | n+1 => createWorkersLoop n t now (createWorker t now s)

/-- `scaleWorkers(type, count)` (worker-manager.js lines 71-84): if the
current type-T rows number fewer than count, create the difference; if
more, stopWorker the first (current − count) rows in row order. -/
def scaleWorkers (t : String) (count now : Nat) (s : WMState) : WMState :=
  let cur := getByType t s.registry
  if cur.length < count then
    createWorkersLoop (count - cur.length) t now s
  else if count < cur.length then
    (cur.take (cur.length - count)).foldl
      (fun st w => (stopWorker w.id st).1) s
  else s

theorem stopWorker_fst (idv : Nat) (s : WMState) :
    (stopWorker idv s).1.registry = s.registry ∧
    (stopWorker idv s).1.handles = s.handles.filter (fun h => h != idv) := by
  unfold stopWorker
  by_cases h : idv ∈ s.handles
  · rw [if_pos h]
    exact ⟨rfl, rfl⟩
  · rw [if_neg h]
    refine ⟨rfl, ?_⟩
    symm
    apply List.filter_eq_self.mpr
    intro a ha
    simp only [bne_iff_ne, ne_eq, decide_eq_true_eq]
    intro heq
    exact h (heq ▸ ha)

theorem stopFold_spec (ws : List WorkerRow) :
    ∀ s : WMState,
    (ws.foldl (fun st w => (stopWorker w.id st).1) s).registry =
      s.registry ∧
    (ws.foldl (fun st w => (stopWorker w.id st).1) s).handles =
      s.handles.filter (fun h =>
        (ws.map WorkerRow.id).all (fun i => h != i)) := by
  induction ws with
  | nil =>
    intro s
    refine ⟨rfl, ?_⟩
    symm
    apply List.filter_eq_self.mpr
    intro a _
    simp
  | cons w ws ih =>
    intro s
    simp only [List.foldl_cons]
    obtain ⟨hreg, hhand⟩ := ih ((stopWorker w.id s).1)
    obtain ⟨hreg0, hhand0⟩ := stopWorker_fst w.id s
    refine ⟨by rw [hreg, hreg0], ?_⟩
    rw [hhand, hhand0, List.filter_filter]
    apply List.filter_congr
    intro a _
    simp only [List.map_cons, List.all_cons]
    exact Bool.and_comm _ _

theorem wmstate_ext {x y : WMState} (h1 : x.registry = y.registry)
    (h2 : x.handles = y.handles) : x = y := by
  cases x
  cases y
  simp_all

/-- The worker-manager state used by the C8 counterexample and witness:
three registered sms workers, each with a live process handle. -/
def wmEx : WMState :=
  { registry := [(⟨1, "sms", "idle", 0, 0, 0⟩ : WorkerRow),
                 (⟨2, "sms", "idle", 0, 0, 0⟩ : WorkerRow),
                 (⟨3, "sms", "idle", 0, 0, 0⟩ : WorkerRow)],
    handles := [1, 2, 3] }

/-- C8 counterexample: scaling three sms workers down to one kills the
first two processes but deletes no Worker rows, so the registry still
holds three workers of the type, not the desired one. -/
theorem scaleWorkers_registry_counterexample :
    (getByType "sms" wmEx.registry).length = 3 ∧
    (getByType "sms" (scaleWorkers "sms" 1 7 wmEx).registry).length = 3 ∧
    (getByType "sms" (scaleWorkers "sms" 1 7 wmEx).registry).length ≠ 1 ∧
    (scaleWorkers "sms" 1 7 wmEx).handles = [3] := by
  decide

/-- C8 amended: when current > desired, scaleWorkers(T, desired) calls
stopWorker on the first (current − desired) type-T rows in existing row
order (oldest first), which kills those child processes and drops their
in-memory handles; the Worker records are not destroyed — the registry is
left exactly as it was, and only the handle map shrinks to the handles
whose id is not among the stopped rows. -/
theorem scaleWorkers_scale_down (t : String) (count now : Nat)
    (s : WMState) (h : count < (getByType t s.registry).length) :
    scaleWorkers t count now s =
      { registry := s.registry,
        handles := s.handles.filter (fun hd =>
          (((getByType t s.registry).take
              ((getByType t s.registry).length - count)).map
            WorkerRow.id).all (fun i => hd != i)) } := by
  obtain ⟨hreg, hhand⟩ := stopFold_spec
    ((getByType t s.registry).take ((getByType t s.registry).length - count)) s
  simp only [scaleWorkers]
  rw [if_neg (by omega), if_pos h]
  exact wmstate_ext (by rw [hreg]) (by rw [hhand])

theorem scaleWorkers_scale_down_witness :
    scaleWorkers "sms" 1 7 wmEx =
      { registry := wmEx.registry, handles := [3] } := by
  have h := scaleWorkers_scale_down "sms" 1 7 wmEx (by decide)
  rw [h]
  decide

/- ### Worker runtime error handling (src/worker.js, processJob) -/

/-- The external calls processJob makes, in program order: the processing
PATCH (lines 72-75), the busy PATCH (lines 83-85), the adapter/webhook
execution (lines 92-153), the completed PATCH (lines 157-160), the idle
PATCH (lines 169-171), the completion PUBLISH (lines 178-182); and in the
catch block (lines 189-224) the failed PATCH, the idle-after-failure
PATCH, and the failure PUBLISH. -/
inductive WCall where
  | patchJobProcessing
  | patchWorkerBusy
  | runAdapter
  | patchJobCompleted
  | patchWorkerIdle
  | publishComplete
  | patchJobFailed
  | patchWorkerIdleFail
  | publishFailed
deriving Repr, DecidableEq

/-- The catch block of processJob (src/worker.js lines 189-224): the
failed PATCH, the idle PATCH and the failure PUBLISH are each attempted in
their own try/catch, so all three run whatever the others do; the error is
then rethrown. -/
def catchCalls : List WCall :=
  [WCall.patchJobFailed, WCall.patchWorkerIdleFail, WCall.publishFailed]

/-- processJob (src/worker.js lines 64-225) as the trace of attempted
external calls, driven by an oracle giving each call's outcome (true =
succeeds).  The processing PATCH, busy PATCH and adapter execution
rethrow into the catch block (`throw patchError` / `throw workerError` /
`throw scriptError`), and so does the completed PATCH
(`throw completeError`); failures of the idle PATCH and the completion
PUBLISH are swallowed.  The Bool records whether processJob rethrew. -/
def processJob (o : WCall → Bool) : List WCall × Bool :=
  if o WCall.patchJobProcessing = false then
    ([WCall.patchJobProcessing] ++ catchCalls, true)
  else if o WCall.patchWorkerBusy = false then
    ([WCall.patchJobProcessing, WCall.patchWorkerBusy] ++ catchCalls, true)
  else if o WCall.runAdapter = false then
    ([WCall.patchJobProcessing, WCall.patchWorkerBusy, WCall.runAdapter]
      ++ catchCalls, true)
  else if o WCall.patchJobCompleted = false then
    ([WCall.patchJobProcessing, WCall.patchWorkerBusy, WCall.runAdapter,
      WCall.patchJobCompleted] ++ catchCalls, true)
  else
    ([WCall.patchJobProcessing, WCall.patchWorkerBusy, WCall.runAdapter,
      WCall.patchJobCompleted, WCall.patchWorkerIdle, WCall.publishComplete],
     false)

/-- The try/catch around processJob inside pollForJobs (src/worker.js
lines 227-252): any rethrown error is logged and swallowed, and the loop
reschedules, so nothing propagates above the job boundary of the loop. -/
def pollStep (o : WCall → Bool) : List WCall × Bool :=
  ((processJob o).1, false)

/-- Oracle making exactly the completed PATCH fail. -/
def oracleFailCompleted : WCall → Bool :=
  fun c => !(c == WCall.patchJobCompleted)

/-- C6 counterexample: when only the completed PATCH fails, its failure is
rethrown (`throw completeError`): the success path's idle PATCH and
completion PUBLISH are never attempted, and the catch block even PATCHes
the successfully executed job to failed — so a PATCH failure does abort
the other PATCH/PUBLISH calls of the job. -/
theorem processJob_abort_counterexample :
    (processJob oracleFailCompleted).1 =
      [WCall.patchJobProcessing, WCall.patchWorkerBusy, WCall.runAdapter,
       WCall.patchJobCompleted, WCall.patchJobFailed,
       WCall.patchWorkerIdleFail, WCall.publishFailed] ∧
    WCall.publishComplete ∉ (processJob oracleFailCompleted).1 ∧
    WCall.patchWorkerIdle ∉ (processJob oracleFailCompleted).1 ∧
    WCall.patchJobFailed ∈ (processJob oracleFailCompleted).1 ∧
    (processJob oracleFailCompleted).2 = true := by
  decide

/-- C6 amended: only the idle PATCH, the two PUBLISH calls and the three
catch-block calls are wrapped with swallowed failures — the trace and
outcome of processJob depend solely on the oracle's verdicts for the
processing PATCH, the busy PATCH, the adapter run and the completed PATCH
(so a failure of any wrapped call aborts nothing); whenever processJob
rethrows, all three catch-block reporting calls are still attempted; and
the polling loop catches the rethrow, so no failure is raised above the
loop's job boundary. -/
theorem processJob_error_wrapping (o o₂ : WCall → Bool)
    (h1 : o WCall.patchJobProcessing = o₂ WCall.patchJobProcessing)
    (h2 : o WCall.patchWorkerBusy = o₂ WCall.patchWorkerBusy)
    (h3 : o WCall.runAdapter = o₂ WCall.runAdapter)
    (h4 : o WCall.patchJobCompleted = o₂ WCall.patchJobCompleted) :
    processJob o = processJob o₂ ∧
    ((processJob o).2 = true → ∀ c ∈ catchCalls, c ∈ (processJob o).1) ∧
    (pollStep o).2 = false := by
  refine ⟨?_, ?_, rfl⟩
  · unfold processJob
    rw [h1, h2, h3, h4]
  · intro hthrew c hc
    unfold processJob at hthrew ⊢
    by_cases b1 : o WCall.patchJobProcessing = false
    · rw [if_pos b1]
      exact List.mem_append_right _ hc
    · rw [if_neg b1]
      rw [if_neg b1] at hthrew
      by_cases b2 : o WCall.patchWorkerBusy = false
      · rw [if_pos b2]
        exact List.mem_append_right _ hc
      · rw [if_neg b2]
        rw [if_neg b2] at hthrew
        by_cases b3 : o WCall.runAdapter = false
        · rw [if_pos b3]
          exact List.mem_append_right _ hc
        · rw [if_neg b3]
          rw [if_neg b3] at hthrew
          by_cases b4 : o WCall.patchJobCompleted = false
          · rw [if_pos b4]
            exact List.mem_append_right _ hc
          · rw [if_neg b4] at hthrew
            simp at hthrew

/-- Oracle making exactly the success-path idle PATCH fail. -/
def oracleFailIdle : WCall → Bool :=
  fun c => !(c == WCall.patchWorkerIdle)

def oracleAllOk : WCall → Bool := fun _ => true

theorem processJob_error_wrapping_witness :
    processJob oracleFailIdle = processJob oracleAllOk ∧
    (pollStep oracleFailIdle).2 = false := by
  have h := processJob_error_wrapping oracleFailIdle oracleAllOk
    (by decide) (by decide) (by decide) (by decide)
  exact ⟨h.1, h.2.2⟩

/- ### The claim race (two workers, every interleaving) -/

/-- Local state of a worker executing getNextPending: before its SELECT,
after its SELECT (holding the candidate it read), or finished (holding the
value it returns). -/
inductive WPhase where
  | start
  | selected (c : Option JobRow)
  | done (r : Option JobRow)
deriving Repr, DecidableEq

/-- One step of a worker's claim operation against the shared table:
the SELECT, then the compare-and-set of the candidate (exactly the two
database accesses of Job.getNextPending). -/
def wstep (t : String) (now : Nat) (w : WPhase) (db : JobsDb) :
    WPhase × JobsDb :=
  match w with
  | WPhase.start => (WPhase.selected (selectOldestPending t db), db)
  | WPhase.selected none => (WPhase.done none, db)
  | WPhase.selected (some c) =>
    let p := casClaim c.id now db
    if p.2 = 0 then (WPhase.done none, p.1) else (WPhase.done (some c), p.1)
  | WPhase.done r => (WPhase.done r, db)

/-- Run two claim operations (worker A with clock nowA, worker B with
clock nowB) against the shared table under an arbitrary interleaving:
each schedule entry picks which worker performs its next step. -/
def raceRun (t : String) (nowA nowB : Nat) :
    List Bool → WPhase × WPhase × JobsDb → WPhase × WPhase × JobsDb
  | [], cfg => cfg
  | pick :: rest, (a, b, db) =>
    if pick then
      let p := wstep t nowA a db
      raceRun t nowA nowB rest (p.1, b, p.2)
    else
      let p := wstep t nowB b db
      raceRun t nowA nowB rest (a, p.1, p.2)

/-- Phases a worker can be in while the job is still unclaimed. -/
def pendingPhase (j : JobRow) (w : WPhase) : Prop :=
  w = WPhase.start ∨ w = WPhase.selected (some j)

/-- Phases the losing worker can be in once the job has been claimed. -/
def loserPhase (j : JobRow) (w : WPhase) : Prop :=
  w = WPhase.start ∨ w = WPhase.selected none ∨
  w = WPhase.selected (some j) ∨ w = WPhase.done none

/-- Invariant of the race on a table whose only pending job of the type
is j: either the job is unclaimed and both workers are before their CAS,
or exactly one worker has claimed it and the other can only lose. -/
def RaceInv (_t : String) (nowA nowB : Nat) (db0 : JobsDb) (j : JobRow)
    (cfg : WPhase × WPhase × JobsDb) : Prop :=
  (cfg.2.2 = db0 ∧ pendingPhase j cfg.1 ∧ pendingPhase j cfg.2.1) ∨
  (cfg.1 = WPhase.done (some j) ∧ loserPhase j cfg.2.1 ∧
    cfg.2.2 = (casClaim j.id nowA db0).1) ∨
  (cfg.2.1 = WPhase.done (some j) ∧ loserPhase j cfg.1 ∧
    cfg.2.2 = (casClaim j.id nowB db0).1)

theorem filter_singleton_props {t : String} {db0 : JobsDb} {j : JobRow}
    (hj : db0.filter (isPendingOfType t) = [j]) :
    j ∈ db0 ∧ isPendingOfType t j = true := by
  have : j ∈ db0.filter (isPendingOfType t) := by
    rw [hj]
    exact List.mem_singleton_self j
  exact List.mem_filter.mp this

theorem select_of_filter_singleton {t : String} {db0 : JobsDb} {j : JobRow}
    (hj : db0.filter (isPendingOfType t) = [j]) :
    selectOldestPending t db0 = some j := by
  obtain ⟨hjm, hjp⟩ := filter_singleton_props hj
  cases hs : selectOldestPending t db0 with
  | none => exact absurd hs (selectOldestPending_filter_ne_nil hjm hjp)
  | some c =>
    have hcm := selectOldestPending_mem hs
    have hcp := selectOldestPending_pending hs
    have hcf : c ∈ db0.filter (isPendingOfType t) :=
      List.mem_filter.mpr ⟨hcm, hcp⟩
    rw [hj] at hcf
    have : c = j := by simpa using hcf
    rw [this]

/-- After the job's compare-and-set, no pending row of the type remains
when j was the only one. -/
theorem claimed_no_pending {t : String} {db0 : JobsDb} {j : JobRow}
    (hj : db0.filter (isPendingOfType t) = [j]) (nw : Nat) :
    ((casClaim j.id nw db0).1).filter (isPendingOfType t) = [] := by
  rw [List.filter_eq_nil_iff]
  intro r hr
  obtain ⟨r0, hr0, hfr⟩ := List.mem_map.mp hr
  by_cases hm : (r0.id == j.id && r0.status == "pending") = true
  · rw [← hfr]
    simp only [claimUpdateRow, hm, if_true, isPendingOfType]
    rw [show (("processing" : String) == "pending") = false from by decide]
    simp
  · have hid : claimUpdateRow j.id nw r0 = r0 := by
      simp only [claimUpdateRow]
      rw [if_neg hm]
    rw [← hfr, hid]
    intro hpred
    have hrf : r0 ∈ db0.filter (isPendingOfType t) :=
      List.mem_filter.mpr ⟨hr0, hpred⟩
    rw [hj] at hrf
    have hrj : r0 = j := by simpa using hrf
    apply hm
    rw [hrj]
    simp [(isPendingOfType_iff.mp (hrj ▸ hpred)).1]

/-- A second compare-and-set on the same id always matches zero rows. -/
theorem casClaim_then_zero (idv nw now2 : Nat) (db : JobsDb) :
    (casClaim idv now2 (casClaim idv nw db).1).2 = 0 := by
  simp only [casClaim, List.length_eq_zero]
  rw [List.filter_eq_nil_iff]
  intro r hr
  obtain ⟨r0, hr0, hfr⟩ := List.mem_map.mp hr
  by_cases hm : (r0.id == idv && r0.status == "pending") = true
  · rw [← hfr]
    simp only [claimUpdateRow, hm, if_true]
    rw [show (("processing" : String) == "pending") = false from by decide]
    simp
  · rw [← hfr]
    simp only [claimUpdateRow, hm, if_false]
    exact hm

/-- Stepping one worker preserves the race invariant (generic in which
clock the stepping worker uses; `other` is the non-stepping worker). -/
theorem wstep_cases {t : String} {db0 : JobsDb} {j : JobRow}
    (hj : db0.filter (isPendingOfType t) = [j]) (now : Nat) :
    (∀ w, pendingPhase j w →
      (wstep t now w db0 = (WPhase.selected (some j), db0)) ∨
      (wstep t now w db0 = (WPhase.done (some j), (casClaim j.id now db0).1))) ∧
    (∀ w nw, loserPhase j w →
      ∃ w2, loserPhase j w2 ∧
        wstep t now w ((casClaim j.id nw db0).1) =
          (w2, (casClaim j.id nw db0).1)) := by
  obtain ⟨hjm, hjp⟩ := filter_singleton_props hj
  have hjst : j.status = "pending" := (isPendingOfType_iff.mp hjp).1
  constructor
  · intro w hw
    rcases hw with hw | hw
    · subst hw
      left
      simp only [wstep]
      rw [select_of_filter_singleton hj]
    · subst hw
      right
      simp only [wstep]
      rw [if_neg (casClaim_changes_pos now hjm hjst)]
  · intro w nw hw
    rcases hw with hw | hw | hw | hw
    · subst hw
      refine ⟨WPhase.selected none, Or.inr (Or.inl rfl), ?_⟩
      simp only [wstep]
      rw [selectOldestPending_none_iff.mpr (claimed_no_pending hj nw)]
    · subst hw
      exact ⟨WPhase.done none, Or.inr (Or.inr (Or.inr rfl)), rfl⟩
    · subst hw
      refine ⟨WPhase.done none, Or.inr (Or.inr (Or.inr rfl)), ?_⟩
      simp only [wstep]
      rw [if_pos (casClaim_then_zero j.id nw now db0),
        casClaim_zero_changes_id (casClaim_then_zero j.id nw now db0)]
    · subst hw
      exact ⟨WPhase.done none, Or.inr (Or.inr (Or.inr rfl)), rfl⟩

theorem raceStep_preserves_a {t : String} {nowA nowB : Nat} {db0 : JobsDb}
    {j : JobRow} (hj : db0.filter (isPendingOfType t) = [j])
    {a b : WPhase} {db : JobsDb}
    (hinv : RaceInv t nowA nowB db0 j (a, b, db)) :
    RaceInv t nowA nowB db0 j
      ((wstep t nowA a db).1, b, (wstep t nowA a db).2) := by
  obtain ⟨hpend, hloser⟩ := wstep_cases hj nowA
  rcases hinv with ⟨hdb, ha, hb⟩ | ⟨ha, hb, hdb⟩ | ⟨hb, ha, hdb⟩
  · subst hdb
    rcases hpend a ha with hs | hs
    · rw [hs]
      exact Or.inl ⟨rfl, Or.inr rfl, hb⟩
    · rw [hs]
      refine Or.inr (Or.inl ⟨rfl, ?_, rfl⟩)
      rcases hb with hb | hb
      · exact Or.inl hb
      · exact Or.inr (Or.inr (Or.inl hb))
  · subst ha
    subst hdb
    exact Or.inr (Or.inl ⟨rfl, hb, rfl⟩)
  · subst hdb
    obtain ⟨w2, hw2, hs⟩ := hloser a nowB ha
    rw [hs]
    exact Or.inr (Or.inr ⟨hb, hw2, rfl⟩)

theorem raceStep_preserves_b {t : String} {nowA nowB : Nat} {db0 : JobsDb}
    {j : JobRow} (hj : db0.filter (isPendingOfType t) = [j])
    {a b : WPhase} {db : JobsDb}
    (hinv : RaceInv t nowA nowB db0 j (a, b, db)) :
    RaceInv t nowA nowB db0 j
      (a, (wstep t nowB b db).1, (wstep t nowB b db).2) := by
  obtain ⟨hpend, hloser⟩ := wstep_cases hj nowB
  rcases hinv with ⟨hdb, ha, hb⟩ | ⟨ha, hb, hdb⟩ | ⟨hb, ha, hdb⟩
  · subst hdb
    rcases hpend b hb with hs | hs
    · rw [hs]
      exact Or.inl ⟨rfl, ha, Or.inr rfl⟩
    · rw [hs]
      refine Or.inr (Or.inr ⟨rfl, ?_, rfl⟩)
      rcases ha with ha | ha
      · exact Or.inl ha
      · exact Or.inr (Or.inr (Or.inl ha))
  · subst hdb
    obtain ⟨w2, hw2, hs⟩ := hloser b nowA hb
    rw [hs]
    exact Or.inr (Or.inl ⟨ha, hw2, rfl⟩)
  · subst hb
    subst hdb
    exact Or.inr (Or.inr ⟨rfl, ha, rfl⟩)

theorem raceRun_preserves {t : String} {nowA nowB : Nat} {db0 : JobsDb}
    {j : JobRow} (hj : db0.filter (isPendingOfType t) = [j]) :
    ∀ (sched : List Bool) (cfg : WPhase × WPhase × JobsDb),
      RaceInv t nowA nowB db0 j cfg →
      RaceInv t nowA nowB db0 j (raceRun t nowA nowB sched cfg) := by
  intro sched
  induction sched with
  | nil => intro cfg h; exact h
  | cons pick rest ih =>
    intro cfg h
    obtain ⟨a, b, db⟩ := cfg
    simp only [raceRun]
    by_cases hp : pick
    · rw [if_pos hp]
      exact ih _ (raceStep_preserves_a hj h)
    · rw [if_neg hp]
      exact ih _ (raceStep_preserves_b hj h)

/-- C2: two claim operations racing on the same pending job — the table's
only pending job of the type — under every interleaving of their SELECT
and compare-and-set steps: whenever both have finished, exactly one of
them observes a non-null claim result (and it is that job). -/
theorem claim_race_mutual_exclusion (t : String) (nowA nowB : Nat)
    (db0 : JobsDb) (j : JobRow)
    (hj : db0.filter (isPendingOfType t) = [j]) (sched : List Bool)
    (ra rb : Option JobRow)
    (ha : (raceRun t nowA nowB sched
      (WPhase.start, WPhase.start, db0)).1 = WPhase.done ra)
    (hb : (raceRun t nowA nowB sched
      (WPhase.start, WPhase.start, db0)).2.1 = WPhase.done rb) :
    (ra = some j ∧ rb = none) ∨ (ra = none ∧ rb = some j) := by
  have hinv0 : RaceInv t nowA nowB db0 j (WPhase.start, WPhase.start, db0) :=
    Or.inl ⟨rfl, Or.inl rfl, Or.inl rfl⟩
  have hinv := raceRun_preserves hj sched _ hinv0
  rcases hinv with ⟨_, hpa, _⟩ | ⟨hwa, hlb, _⟩ | ⟨hwb, hla, _⟩
  · rcases hpa with hpa | hpa <;> rw [ha] at hpa <;> exact absurd hpa (by simp)
  · rw [ha] at hwa
    have hra : ra = some j := by
      have := WPhase.done.inj hwa
      exact this
    rcases hlb with hlb | hlb | hlb | hlb
    · rw [hb] at hlb
      exact absurd hlb (by simp)
    · rw [hb] at hlb
      exact absurd hlb (by simp)
    · rw [hb] at hlb
      exact absurd hlb (by simp)
    · rw [hb] at hlb
      exact Or.inl ⟨hra, WPhase.done.inj hlb⟩
  · rw [hb] at hwb
    have hrb : rb = some j := by
      have := WPhase.done.inj hwb
      exact this
    rcases hla with hla | hla | hla | hla
    · rw [ha] at hla
      exact absurd hla (by simp)
    · rw [ha] at hla
      exact absurd hla (by simp)
    · rw [ha] at hla
      exact absurd hla (by simp)
    · rw [ha] at hla
      exact Or.inr ⟨WPhase.done.inj hla, hrb⟩

theorem claim_race_mutual_exclusion_witness :
    ((some jobEx = some jobEx ∧ (none : Option JobRow) = none) ∨
     (some jobEx = (none : Option JobRow) ∧ none = some jobEx)) := by
  exact claim_race_mutual_exclusion "sms" 7 9 [jobEx] jobEx (by decide)
    [true, true, false, false] (some jobEx) none (by decide) (by decide)

end Queue
